import Mathlib

/-!
# Verification of the dictyexpress single-cell data loader and UMAP plot

Shallow embedding of
`src/components/genexpress/modules/singleCellExpressions/dataLoader.ts` and
`src/components/genexpress/modules/singleCellExpressions/umapPlot/` (the
UmapPlot component), together with theorems settling the specification
claims about them.

Numeric values carried by expression vectors are modelled as rationals
(ideal arithmetic); the JavaScript `Infinity` seeds used by the
aggregation loop are modelled by an explicit extended-number type.
-/

namespace DictyExpress

/-- An expression vector (the `Float32Array` of per-cell values for one gene). -/
abbrev ExpressionVector := List ℚ

/-! ## `loadMultipleGenesExpression` (dataLoader.ts, lines 307–360)

The asynchronous batch loader is embedded as a pure function of two
oracles fixed for the duration of one call:
* `cache : ℕ → Option ExpressionVector` — the outcome of
  `getCachedGeneExpression` for each index (`none` models both a cache
  miss and a swallowed cache read error, exactly as the source resolves
  `null` in both cases);
* `fetch : ℕ → Except Unit ExpressionVector` — the outcome of the
  network fetch inside `loadGeneExpression` for an uncached index
  (`.error` models a rejected zarr fetch or a `DecodeError`).

The `data` JavaScript `Map` is embedded as an association list in
insertion order: cached entries first (in input order of `geneIndices`,
i.e. the order of `cacheChecks`), then successfully fetched entries (in
the order of `uncachedIndices`). Since `cache` and `fetch` are functions
of the index, duplicate keys always carry the same value, so first-match
lookup agrees with the JavaScript `Map`'s last-write-wins semantics. -/

/-- The shape of the resolved value of `loadMultipleGenesExpression`:
`{ data: Map<number, Float32Array>, failedIndices: number[] }`. -/
structure MultiLoadResult where
  data : List (ℕ × ExpressionVector)
  failedIndices : List ℕ
deriving DecidableEq

/-- First-match association-list lookup, standing in for `Map.get`. -/
def lookupIndex (i : ℕ) : List (ℕ × ExpressionVector) → Option ExpressionVector
  | [] => none
  | (j, v) :: rest => if j = i then some v else lookupIndex i rest

/-- The `uncachedIndices` array of the source: the input indices whose
parallel cache lookup (`cacheChecks`) resolved `null`, in input order. -/
def uncachedIndices (cache : ℕ → Option ExpressionVector) (geneIndices : List ℕ) : List ℕ :=
  geneIndices.filter (fun i => (cache i).isNone)

/-- `loadMultipleGenesExpression(geneIndices)`. A thrown
`Failed to load expression data for gene(s) at indices: …` error is the
`.error` branch, carrying the `failedGenes` list it names. -/
def loadMultipleGenesExpression (cache : ℕ → Option ExpressionVector)
    (fetch : ℕ → Except Unit ExpressionVector) (geneIndices : List ℕ) :
    Except (List ℕ) MultiLoadResult :=
  -- `results.set(geneIndex, cached)` for every cached index, in order
  let cachedResults := geneIndices.filterMap (fun i => (cache i).map (fun v => (i, v)))
  let uncached := uncachedIndices cache geneIndices
  if 0 < uncached.length then
    -- `loadedGenes`: one `{geneIndex, data, error}` record per uncached index
    let loadedGenes := uncached.map (fun i => (i, fetch i))
    let successes := loadedGenes.filterMap (fun p => p.2.toOption.map (fun v => (p.1, v)))
    let failedGenes := loadedGenes.filterMap
      (fun p => if p.2.toOption.isNone then some p.1 else none)
    if failedGenes.length = uncached.length then
      Except.error failedGenes
    else
      Except.ok ⟨cachedResults ++ successes, failedGenes⟩
  else
    Except.ok ⟨cachedResults, []⟩

/-! ## Strain switching and the per-strain cache keys (dataLoader.ts lines 24–44, 164–300)

The module-level mutable state of `dataLoader.ts` (`currentStrain`,
`expressionStoreInstance`, `expressionArrayInstance`, the IndexedDB
contents) is embedded as an explicit state record threaded through the
operations. The remote zarr store is an oracle
`remote : String → ℕ → ExpressionVector` mapping a store URL and a gene
index to the row that `zarrArray.get([geneIndex, null])` yields; for
this component the fetch and the fire-and-forget cache write are taken
to succeed (the claims under verification are about the happy path of
the caching logic, not about storage failures). -/

/-- Module state of `dataLoader.ts`. `fetchLog` records one entry per
remote row fetch actually issued (store URL and gene index), newest
first; it is the observable the "exactly one remote fetch" claims are
stated against. -/
structure LoaderState where
  currentStrain : String
  expressionStoreInstance : Option String
  expressionArrayInstance : Option String
  cache : List ((String × ℕ) × ExpressionVector)
  fetchLog : List (String × ℕ)
deriving DecidableEq

/-- First-match lookup on the IndexedDB contents, keyed like the source's
`` `${getCurrentStrain()}:${geneIndex}` `` cache key. A `put` for an
existing key overwrites, which the cons-plus-first-match embedding
reproduces. -/
def lookupCache (k : String × ℕ) : List ((String × ℕ) × ExpressionVector) → Option ExpressionVector
  | [] => none
  | (k', v) :: rest => if k' = k then some v else lookupCache k rest

def DATA_BASE_PATH : String := "/single-cell-data"

/-- `getDataUrl()` for a given current strain. -/
def getDataUrl (strain : String) : String := DATA_BASE_PATH ++ "/" ++ strain

/-- `setStrain(strain)`: resets the two shared zarr handles, leaves the
persistent cache untouched; no-op when the strain is unchanged. -/
def setStrain (strain : String) (s : LoaderState) : LoaderState :=
  if strain ≠ s.currentStrain then
    { s with
      currentStrain := strain
      expressionStoreInstance := none
      expressionArrayInstance := none }
  else s

/-- `getCachedGeneExpression(geneIndex)` under the current strain. -/
def getCachedGeneExpression (s : LoaderState) (geneIndex : ℕ) : Option ExpressionVector :=
  lookupCache (s.currentStrain, geneIndex) s.cache

/-- `getExpressionArray()`: lazily (re-)acquires the shared store and
array handles; the handle is identified by the store URL it was opened
on. -/
def getExpressionArray (s : LoaderState) : String × LoaderState :=
  match s.expressionArrayInstance with
  | some h => (h, s)
  | none =>
    let store := s.expressionStoreInstance.getD (getDataUrl s.currentStrain ++ "/arrays/expression")
    (store, { s with expressionStoreInstance := some store, expressionArrayInstance := some store })

/-- `loadGeneExpression(geneIndex)`: cache-then-network, with the
successful fetch persisted under the strain-qualified key and logged in
`fetchLog`. -/
def loadGeneExpression (remote : String → ℕ → ExpressionVector) (geneIndex : ℕ)
    (s : LoaderState) : ExpressionVector × LoaderState :=
  match getCachedGeneExpression s geneIndex with
  | some cached => (cached, s)
  | none =>
    let (handle, s1) := getExpressionArray s
    let typedData := remote handle geneIndex
    (typedData,
      { s1 with
        cache := ((s1.currentStrain, geneIndex), typedData) :: s1.cache
        fetchLog := (handle, geneIndex) :: s1.fetchLog })

/-! ## `clearCache` / `getCacheStats` (dataLoader.ts lines 365–399)

Each is embedded as a function of the outcome of the two storage steps
it performs: opening the database (`initCache`, whose rejection is
`await`ed inside the `try`) and the IndexedDB request it issues. The
essential semantic point, visible in the source, is that `clearCache`
*returns* the inner promise from inside the `try` block without
`await`ing it, so a rejection of that promise — which the source
produces via `reject(new Error(... 'Failed to clear cache'))` on
`request.onerror` — escapes the `try`/`catch` and rejects the caller's
promise, whereas `getCacheStats`'s inner promise only ever resolves
(`onerror` resolves `{cachedGenes: 0}`). -/

/-- `clearCache()`. `initResult` is the outcome of `await initCache()`,
`clearRequest` the outcome of `store.clear()`. -/
def clearCache (initResult : Except String Unit) (clearRequest : Except String Unit) :
    Except String Unit :=
  match initResult with
  | Except.error _ => Except.ok ()  -- catch: logWarning and return normally
  | Except.ok _ =>
    match clearRequest with
    | Except.ok _ => Except.ok ()
    | Except.error m => Except.error m  -- returned (un-awaited) promise rejects

/-- `getCacheStats()`. `countRequest` is the outcome of `store.count()`. -/
def getCacheStats (initResult : Except String Unit) (countRequest : Except String ℕ) :
    Except String ℕ :=
  match initResult with
  | Except.error _ => Except.ok 0
  | Except.ok _ =>
    match countRequest with
    | Except.ok n => Except.ok n
    | Except.error _ => Except.ok 0

/-! ## `aggregateGeneExpression` (dataLoader.ts lines 404–456)

The per-cell accumulator `value` is a JavaScript number that the `min`
and `max` branches seed with `Infinity` and `-Infinity`; it is embedded
as an extended rational. Input vectors hold finite values, and reading
`expr[cellIdx]` is embedded as `List.getD _ 0` (in range whenever the
vectors have the common length `nCells` read off the first vector, as
the claims assume). -/

/-- A JavaScript number as used by the aggregation loop: a finite value
or one of the two infinities. -/
inductive JsNum where
  | negInf : JsNum
  | fin : ℚ → JsNum
  | posInf : JsNum
deriving DecidableEq

/-- `Math.min` on the values the aggregation loop can hold. -/
def jsMin : JsNum → JsNum → JsNum
  | JsNum.posInf, b => b
  | a, JsNum.posInf => a
  | JsNum.negInf, _ => JsNum.negInf
  | _, JsNum.negInf => JsNum.negInf
  | JsNum.fin a, JsNum.fin b => JsNum.fin (min a b)

/-- `Math.max` on the values the aggregation loop can hold. -/
def jsMax : JsNum → JsNum → JsNum
  | JsNum.negInf, b => b
  | a, JsNum.negInf => a
  | JsNum.posInf, _ => JsNum.posInf
  | _, JsNum.posInf => JsNum.posInf
  | JsNum.fin a, JsNum.fin b => JsNum.fin (max a b)

/-- The four values of the `mode` union type. -/
inductive AggregationMode where
  | sum | average | min | max
deriving DecidableEq

/-- The body of the `for (cellIdx …)` loop: the final accumulator
`value` for one cell. -/
def aggregateCell (geneExpressions : List ExpressionVector) (mode : AggregationMode)
    (cellIdx : ℕ) : JsNum :=
  match mode with
  | AggregationMode.sum =>
    JsNum.fin (geneExpressions.foldl (fun value expr => value + expr.getD cellIdx 0) 0)
  | AggregationMode.average =>
    JsNum.fin (geneExpressions.foldl (fun value expr => value + expr.getD cellIdx 0) 0
      / geneExpressions.length)
  | AggregationMode.min =>
    geneExpressions.foldl (fun value expr => jsMin value (JsNum.fin (expr.getD cellIdx 0)))
      JsNum.posInf
  | AggregationMode.max =>
    geneExpressions.foldl (fun value expr => jsMax value (JsNum.fin (expr.getD cellIdx 0)))
      JsNum.negInf

/-- `aggregateGeneExpression(geneExpressions, mode)`. -/
def aggregateGeneExpression (geneExpressions : List ExpressionVector)
    (mode : AggregationMode) : List JsNum :=
  if geneExpressions.length = 0 then
    []
  else
    let nCells := (geneExpressions.headD []).length
    (List.range nCells).map (aggregateCell geneExpressions mode)

/-! ## UmapPlot colors (umapPlot.styles.ts lines 176–294)

Colors are embedded as an inductive type separating the `'#rrggbb'`
string literals of the palettes from the `` `rgb(r, g, b)` `` strings
the gradient builds, preserving the source's string-identity test
`c === ZERO_COLOR` (a gradient-produced `rgb(…)` string never equals the
`'#e8e8e8'` literal). -/

/-- A CSS color as the plot manipulates it. -/
inductive Color where
  | hex : String → Color
  | rgb : ℤ → ℤ → ℤ → Color
deriving DecidableEq

def ZERO_COLOR : Color := Color.hex "#e8e8e8"

def TIME_COLORS : List Color :=
  [Color.hex "#e55b33", Color.hex "#f39446", Color.hex "#ece852",
   Color.hex "#63be68", Color.hex "#47b19f", Color.hex "#2c7eb3"]

def CELL_TYPE_COLORS : List Color :=
  [Color.hex "#e45a31", Color.hex "#2f7db1"]

def clamp01 (t : ℚ) : ℚ := max 0 (min 1 t)

def lerp (a b t : ℚ) : ℚ := a + (b - a) * t

/-- `Math.round`, which rounds half-integers up; Mathlib's `round` is
`⌊x + 1/2⌋`, the same function. -/
def jsRound (x : ℚ) : ℤ := round x

/-- `parseInt` of one hexadecimal digit. -/
def hexVal (c : Char) : ℕ :=
  if '0' ≤ c ∧ c ≤ '9' then c.toNat - '0'.toNat
  else if 'a' ≤ c ∧ c ≤ 'f' then c.toNat - 'a'.toNat + 10
  else if 'A' ≤ c ∧ c ≤ 'F' then c.toNat - 'A'.toNat + 10
  else 0

/-- `parseInt(h.slice(i, i+2), 16)`. -/
def hexPair (c₁ c₂ : Char) : ℕ := 16 * hexVal c₁ + hexVal c₂

/-- `hexToRgb(hex)`: strips `#` and parses the three channel pairs.
(`hex.replace('#', '')` deletes every `#` character, embedded as a
character filter.) -/
def hexToRgb (hex : String) : ℕ × ℕ × ℕ :=
  match hex.toList.filter (fun c => c ≠ '#') with
  | c₁ :: c₂ :: c₃ :: c₄ :: c₅ :: c₆ :: _ =>
    (hexPair c₁ c₂, hexPair c₃ c₄, hexPair c₅ c₆)
  | _ => (0, 0, 0)

/-- `genesColor(t)`: the two-segment gradient `#e8e8e8 → #4a688d` on
`[0, 0.8]` and `#4a688d → #375068` on `[0.8, 1]`, after clamping `t` to
`[0, 1]`. -/
def genesColor (t : ℚ) : Color :=
  let tt := clamp01 t
  let start := hexToRgb "#e8e8e8"
  let mid := hexToRgb "#4a688d"
  let e := hexToRgb "#375068"
  if tt ≤ 0.8 then
    let k := tt / 0.8
    Color.rgb (jsRound (lerp start.1 mid.1 k)) (jsRound (lerp start.2.1 mid.2.1 k))
      (jsRound (lerp start.2.2 mid.2.2 k))
  else
    let k := (tt - 0.8) / 0.2
    Color.rgb (jsRound (lerp mid.1 e.1 k)) (jsRound (lerp mid.2.1 e.2.1 k))
      (jsRound (lerp mid.2.2 e.2.2 k))

/-- `computeLegendMax(values, nCells)` for a `Float32Array` source.
Every rational is finite, so the source's `isFinite(v)` guard is always
true in the model; the unused `nCells` parameter of the source is
dropped. -/
def computeLegendMax (values : List ℚ) : ℚ :=
  let m := values.foldl (fun acc v => if v > acc then v else acc) 0
  if m > 0 then m else 1

/-- `buildColorCache(values, nCells, legendMax)` for a `Float32Array`
source; `values[i] || 0` is `List.getD values i 0`. -/
def buildColorCache (values : List ℚ) (nCells : ℕ) (legendMax : ℚ) : List Color :=
  (List.range nCells).map (fun i =>
    let val := values.getD i 0
    let t := val / legendMax
    if val ≤ 0 then ZERO_COLOR else genesColor t)

/-- The `UmapDataPoint` interface. `time` and `cell_type` are typed
`string` in the interface but the cache builders guard `t != null`, so
they are embedded as `Option String`. -/
structure UmapDataPoint where
  id : String
  x : ℚ
  y : ℚ
  tag : String
  time : Option String
  cell_type : Option String
deriving DecidableEq

/-- `Array.from(new Set(data.map(d => d.time).filter(t => t != null))).sort()`:
the distinct non-null time values in lexicographic order. (The JS `Set`
keeps first occurrences and `List.dedup` keeps last ones; the sort makes
the two orders agree.) -/
def sortedUniqueTimes (data : List UmapDataPoint) : List String :=
  List.insertionSort (fun a b => a ≤ b) ((data.map (fun d => d.time)).reduceOption.dedup)

/-- The distinct non-null cell-type values in lexicographic order. -/
def sortedUniqueCellTypes (data : List UmapDataPoint) : List String :=
  List.insertionSort (fun a b => a ≤ b) ((data.map (fun d => d.cell_type)).reduceOption.dedup)

/-- `palette[idx % palette.length]` at `idx = ` the sorted rank of `t`,
i.e. the `timeToColor.get(t) || ZERO_COLOR` lookup against the map built
by `uniqueTimes.forEach`. -/
def colorForCategory (palette : List Color) (sorted : List String) (t : String) : Color :=
  if t ∈ sorted then palette.getD (sorted.indexOf t % palette.length) ZERO_COLOR
  else ZERO_COLOR

/-- `buildTimeColorCache(data)`. -/
def buildTimeColorCache (data : List UmapDataPoint) : List Color :=
  let uniqueTimes := sortedUniqueTimes data
  data.map (fun d =>
    match d.time with
    | some t => colorForCategory TIME_COLORS uniqueTimes t
    | none => ZERO_COLOR)

/-- `buildCellTypeColorCache(data)`. -/
def buildCellTypeColorCache (data : List UmapDataPoint) : List Color :=
  let uniqueCellTypes := sortedUniqueCellTypes data
  data.map (fun d =>
    match d.cell_type with
    | some t => colorForCategory CELL_TYPE_COLORS uniqueCellTypes t
    | none => ZERO_COLOR)

/-! ## Hover hit-testing (umapPlot.styles.ts lines 743–797)

The non-dragging branch of `handleMouseMove`, inside the
animation-frame callback: a linear scan over the current screen-space
point list keeping the closest point seen so far, accepting only
squared distances `≤ R²` with `R = 6`. -/

/-- A projected point as stored in `spatialIndexRef` (the fields the
scan reads). -/
structure ScatterPlotPoint extends UmapDataPoint where
  screenX : ℚ
  screenY : ℚ
deriving DecidableEq

def hoverRadius : ℚ := 6

/-- One iteration of the scan loop: the `(best, closest)` pair after
examining `p`. -/
def hoverScanStep (coordsX coordsY : ℚ) (acc : ℚ × Option ScatterPlotPoint)
    (p : ScatterPlotPoint) : ℚ × Option ScatterPlotPoint :=
  let dx := p.screenX - coordsX
  let dy := p.screenY - coordsY
  let d2 := dx * dx + dy * dy
  if d2 ≤ acc.1 then (d2, some p) else acc

/-- The hover scan: `best` starts at `R * R`, `closest` at `null`. -/
def hoverDetect (pts : List ScatterPlotPoint) (coordsX coordsY : ℚ) :
    Option ScatterPlotPoint :=
  (pts.foldl (hoverScanStep coordsX coordsY) (hoverRadius * hoverRadius, none)).2

/-- Squared pixel distance from a point to the pointer. -/
def dist2 (coordsX coordsY : ℚ) (p : ScatterPlotPoint) : ℚ :=
  (p.screenX - coordsX) * (p.screenX - coordsX) + (p.screenY - coordsY) * (p.screenY - coordsY)

/-! ## Viewport transform and wheel zoom (umapPlot.styles.ts lines 569–619, 826–862)

Screen coordinates and the zoom update are over the reals, since the
source uses `Math.exp`. Only the projection of an already-computed base
position (`baseX`/`baseY`, the padded linear fit of the data bounds)
through the current `ViewTransform` matters for the zoom-to-cursor
claim; it is the last step of `calculateScreenCoordinates`. -/

structure ViewTransform where
  scale : ℝ
  offsetX : ℝ
  offsetY : ℝ

/-- `screenX` from `calculateScreenCoordinates`: scale about the canvas
center, then translate. -/
noncomputable def projectX (t : ViewTransform) (width baseX : ℝ) : ℝ :=
  (baseX - width / 2) * t.scale + width / 2 + t.offsetX

/-- `screenY` from `calculateScreenCoordinates`. -/
noncomputable def projectY (t : ViewTransform) (height baseY : ℝ) : ℝ :=
  (baseY - height / 2) * t.scale + height / 2 + t.offsetY

/-- The animation-frame callback of `handleWheel`, applied to the
accumulated wheel delta: rescale by `exp(−accum · 0.0015)` and recompute
the offsets, skipping the transform update when the scale is
unchanged. -/
noncomputable def handleWheelUpdate (t : ViewTransform) (coordsX coordsY wheelAccum width height : ℝ) :
    ViewTransform :=
  let k : ℝ := 0.0015
  let newScale := t.scale * Real.exp (-wheelAccum * k)
  if newScale = t.scale then t
  else
    let sr := newScale / t.scale
    let centerX := width / 2
    let centerY := height / 2
    { scale := newScale
      offsetX := (coordsX - centerX) * (1 - sr) + t.offsetX * sr
      offsetY := (coordsY - centerY) * (1 - sr) + t.offsetY * sr }

/-! ## `transformExpression` (dataLoader.ts lines 461–471)

Over the reals, since the source uses `Math.log1p`. -/

/-- The two values of the transform `mode` union type. -/
inductive TransformMode where
  | linear | log1p
deriving DecidableEq

/-- `transformExpression(expression, mode)`: maps the selected
`transformer` over the vector, returning a new vector. -/
noncomputable def transformExpression (expression : List ℝ) (mode : TransformMode) : List ℝ :=
  expression.map (fun value =>
    match mode with
    | TransformMode.linear => value
    | TransformMode.log1p => if 0 ≤ value then Real.log (1 + value) else 0)

/-! ## Theorems -/

/-- C10: `loadMultipleGenesExpression([])` resolves with an empty data
map and empty `failedIndices`; there are no uncached indices, so the
fetch block — and with it the all-fetches-failed check — never runs and
no remote fetch is issued. -/
theorem loadMultipleGenesExpression_empty (cache : ℕ → Option ExpressionVector)
    (fetch : ℕ → Except Unit ExpressionVector) :
    loadMultipleGenesExpression cache fetch [] = Except.ok ⟨[], []⟩ ∧
    uncachedIndices cache [] = [] := by
  exact ⟨rfl, rfl⟩

/-- C9 counterexample: when the database opens but the `clear()` request
fails, `clearCache` rejects with the error instead of returning
normally — the inner promise is returned from the `try` block without
being awaited, so its rejection escapes the `catch`. -/
theorem clearCache_counterexample :
    clearCache (Except.ok ()) (Except.error "boom") = Except.error "boom" := rfl

/-- C9 (amended): `clearCache` returns normally when opening the
database fails, but propagates a failure of the clear request itself;
`getCacheStats` never propagates any error, returning a zero count on an
inaccessible database or a failing count request. -/
theorem clearCache_getCacheStats_failSoft :
    (∀ (e : String) (clearRequest : Except String Unit),
      clearCache (Except.error e) clearRequest = Except.ok ()) ∧
    (∀ initResult : Except String Unit, clearCache initResult (Except.ok ()) = Except.ok ()) ∧
    (∀ m : String, clearCache (Except.ok ()) (Except.error m) = Except.error m) ∧
    (∀ (initResult : Except String Unit) (countRequest : Except String ℕ),
      ∃ n, getCacheStats initResult countRequest = Except.ok n) ∧
    (∀ (e : String) (countRequest : Except String ℕ),
      getCacheStats (Except.error e) countRequest = Except.ok 0) ∧
    (∀ (initResult : Except String Unit) (m : String),
      getCacheStats initResult (Except.error m) = Except.ok 0) := by
  refine ⟨fun e cr => rfl, ?_, fun m => rfl, ?_, fun e cr => rfl, ?_⟩
  · intro ir; cases ir <;> rfl
  · intro ir cr
    cases ir with
    | error e => exact ⟨0, rfl⟩
    | ok u =>
      cases cr with
      | error m => exact ⟨0, rfl⟩
      | ok n => exact ⟨n, rfl⟩
  · intro ir m; cases ir <;> rfl

/-- C4: `transformExpression` with `linear` is the identity on the
vector; with `log1p` it maps each cell `v` to `ln(1 + v)` when `v ≥ 0`
and to `0` when `v < 0`, preserving length. (The model is a pure
function returning a new list, reflecting that the source builds a new
`Float32Array` and never writes to its input.) -/
theorem transformExpression_spec (v : List ℝ) :
    transformExpression v TransformMode.linear = v ∧
    (transformExpression v TransformMode.log1p).length = v.length ∧
    ∀ i : ℕ, (transformExpression v TransformMode.log1p).getD i 0 =
      if 0 ≤ v.getD i 0 then Real.log (1 + v.getD i 0) else 0 := by
  refine ⟨by simp [transformExpression], by simp [transformExpression], ?_⟩
  intro i
  by_cases h : i < v.length
  · simp [transformExpression, List.getD_eq_getElem?_getD, List.getElem?_map,
      List.getElem?_eq_getElem h]
  · have h1 : (transformExpression v TransformMode.log1p).length ≤ i := by
      simp only [transformExpression, List.length_map]
      omega
    have h2 : v.length ≤ i := by omega
    rw [List.getD_eq_default _ _ h1, List.getD_eq_default _ _ h2]
    simp [Real.log_one]

/-! ### Fold helpers shared by the aggregation and legend theorems -/

theorem foldl_add_map (f : ExpressionVector → ℚ) (l : List ExpressionVector) (a : ℚ) :
    l.foldl (fun acc e => acc + f e) a = a + (l.map f).sum := by
  induction l generalizing a with
  | nil => simp
  | cons e rest ih => simp [ih, add_assoc]

theorem foldl_min_mem (xs : List ℚ) : ∀ x : ℚ, xs.foldl min x ∈ x :: xs := by
  induction xs with
  | nil => intro x; simp
  | cons y ys ih =>
    intro x
    rw [List.foldl_cons]
    rcases List.mem_cons.mp (ih (min x y)) with h' | h'
    · rw [h']
      rcases min_choice x y with h | h <;> rw [h]
      · exact List.mem_cons_self _ _
      · exact List.mem_cons.mpr (Or.inr (List.mem_cons_self _ _))
    · exact List.mem_cons.mpr (Or.inr (List.mem_cons.mpr (Or.inr h')))

theorem foldl_min_le (xs : List ℚ) : ∀ x : ℚ, ∀ v ∈ x :: xs, xs.foldl min x ≤ v := by
  induction xs with
  | nil => intro x v hv; simp at hv; simp [hv]
  | cons y ys ih =>
    intro x v hv
    rw [List.foldl_cons]
    rcases List.mem_cons.mp hv with h | h
    · rw [h]
      exact (ih (min x y) (min x y) (List.mem_cons_self _ _)).trans (min_le_left x y)
    · rcases List.mem_cons.mp h with h' | h'
      · rw [h']
        exact (ih (min x y) (min x y) (List.mem_cons_self _ _)).trans (min_le_right x y)
      · exact ih (min x y) v (List.mem_cons.mpr (Or.inr h'))

theorem foldl_max_mem (xs : List ℚ) : ∀ x : ℚ, xs.foldl max x ∈ x :: xs := by
  induction xs with
  | nil => intro x; simp
  | cons y ys ih =>
    intro x
    rw [List.foldl_cons]
    rcases List.mem_cons.mp (ih (max x y)) with h' | h'
    · rw [h']
      rcases max_choice x y with h | h <;> rw [h]
      · exact List.mem_cons_self _ _
      · exact List.mem_cons.mpr (Or.inr (List.mem_cons_self _ _))
    · exact List.mem_cons.mpr (Or.inr (List.mem_cons.mpr (Or.inr h')))

theorem foldl_max_ge (xs : List ℚ) : ∀ x : ℚ, ∀ v ∈ x :: xs, v ≤ xs.foldl max x := by
  induction xs with
  | nil => intro x v hv; simp at hv; simp [hv]
  | cons y ys ih =>
    intro x v hv
    rw [List.foldl_cons]
    rcases List.mem_cons.mp hv with h | h
    · rw [h]
      exact (le_max_left x y).trans (ih (max x y) (max x y) (List.mem_cons_self _ _))
    · rcases List.mem_cons.mp h with h' | h'
      · rw [h']
        exact (le_max_right x y).trans (ih (max x y) (max x y) (List.mem_cons_self _ _))
      · exact ih (max x y) v (List.mem_cons.mpr (Or.inr h'))

theorem jsMin_fin_fin (a b : ℚ) : jsMin (JsNum.fin a) (JsNum.fin b) = JsNum.fin (min a b) := rfl

theorem jsMax_fin_fin (a b : ℚ) : jsMax (JsNum.fin a) (JsNum.fin b) = JsNum.fin (max a b) := rfl

theorem foldl_jsMin_fin (l : List ℚ) : ∀ q : ℚ,
    l.foldl (fun a v => jsMin a (JsNum.fin v)) (JsNum.fin q) = JsNum.fin (l.foldl min q) := by
  induction l with
  | nil => intro q; rfl
  | cons x xs ih =>
    intro q
    rw [List.foldl_cons, List.foldl_cons]
    have h : jsMin (JsNum.fin q) (JsNum.fin x) = JsNum.fin (min q x) := rfl
    rw [h]
    exact ih (min q x)

theorem foldl_jsMax_fin (l : List ℚ) : ∀ q : ℚ,
    l.foldl (fun a v => jsMax a (JsNum.fin v)) (JsNum.fin q) = JsNum.fin (l.foldl max q) := by
  induction l with
  | nil => intro q; rfl
  | cons x xs ih =>
    intro q
    rw [List.foldl_cons, List.foldl_cons]
    have h : jsMax (JsNum.fin q) (JsNum.fin x) = JsNum.fin (max q x) := rfl
    rw [h]
    exact ih (max q x)

theorem aggregateGeneExpression_getD (geneExpressions : List ExpressionVector)
    (mode : AggregationMode) (i : ℕ) (hne : geneExpressions ≠ [])
    (hi : i < (geneExpressions.headD []).length) :
    (aggregateGeneExpression geneExpressions mode).getD i (JsNum.fin 0) =
      aggregateCell geneExpressions mode i := by
  have hlen : geneExpressions.length ≠ 0 := by
    simpa [List.length_eq_zero] using hne
  unfold aggregateGeneExpression
  rw [if_neg hlen, List.getD_eq_getElem?_getD, List.getElem?_map, List.getElem?_range hi]
  rfl

/-- C3: for a non-empty family of equal-length vectors,
`aggregateGeneExpression` computes, per cell, the sum, the sum divided
by the vector count, and the elementwise minimum/maximum (the `±∞`
seeds of the `min`/`max` loops are absorbed by the first vector); the
empty family yields the zero-length vector in every mode. -/
theorem aggregateGeneExpression_spec (geneExpressions : List ExpressionVector) (n : ℕ)
    (hne : geneExpressions ≠ []) (hlen : ∀ e ∈ geneExpressions, e.length = n) :
    (∀ mode, (aggregateGeneExpression geneExpressions mode).length = n) ∧
    (∀ mode, aggregateGeneExpression [] mode = []) ∧
    ∀ i, i < n →
      ((aggregateGeneExpression geneExpressions AggregationMode.sum).getD i (JsNum.fin 0) =
        JsNum.fin ((geneExpressions.map (fun e => e.getD i 0)).sum)) ∧
      ((aggregateGeneExpression geneExpressions AggregationMode.average).getD i (JsNum.fin 0) =
        JsNum.fin ((geneExpressions.map (fun e => e.getD i 0)).sum / geneExpressions.length)) ∧
      (∃ m, (aggregateGeneExpression geneExpressions AggregationMode.min).getD i (JsNum.fin 0) =
          JsNum.fin m ∧ m ∈ geneExpressions.map (fun e => e.getD i 0) ∧
          ∀ v ∈ geneExpressions.map (fun e => e.getD i 0), m ≤ v) ∧
      (∃ m, (aggregateGeneExpression geneExpressions AggregationMode.max).getD i (JsNum.fin 0) =
          JsNum.fin m ∧ m ∈ geneExpressions.map (fun e => e.getD i 0) ∧
          ∀ v ∈ geneExpressions.map (fun e => e.getD i 0), v ≤ m) := by
  obtain ⟨e₀, rest, rfl⟩ := List.exists_cons_of_ne_nil hne
  have hhead : (List.headD (e₀ :: rest) []).length = n := hlen e₀ (List.mem_cons_self _ _)
  constructor
  · intro mode
    have hlen0 : (e₀ :: rest).length ≠ 0 := by simp
    unfold aggregateGeneExpression
    rw [if_neg hlen0, List.length_map, List.length_range]
    exact hhead
  refine ⟨fun mode => rfl, ?_⟩
  intro i hi
  have hi' : i < (List.headD (e₀ :: rest) []).length := by rw [hhead]; exact hi
  have hget := fun mode => aggregateGeneExpression_getD (e₀ :: rest) mode i hne hi'
  refine ⟨?_, ?_, ?_, ?_⟩
  · rw [hget AggregationMode.sum]
    simp only [aggregateCell]
    rw [foldl_add_map (fun e => e.getD i 0) (e₀ :: rest) 0, zero_add]
  · rw [hget AggregationMode.average]
    simp only [aggregateCell]
    rw [foldl_add_map (fun e => e.getD i 0) (e₀ :: rest) 0, zero_add]
  · rw [hget AggregationMode.min]
    have hmin : aggregateCell (e₀ :: rest) AggregationMode.min i =
        JsNum.fin ((rest.map (fun e => e.getD i 0)).foldl min (e₀.getD i 0)) := by
      show (e₀ :: rest).foldl (fun value expr => jsMin value (JsNum.fin (expr.getD i 0)))
        JsNum.posInf = _
      rw [List.foldl_cons]
      have hseed : jsMin JsNum.posInf (JsNum.fin (e₀.getD i 0)) = JsNum.fin (e₀.getD i 0) := rfl
      rw [hseed,
        ← List.foldl_map (fun e => e.getD i 0) (fun a v => jsMin a (JsNum.fin v)) rest
          (JsNum.fin (e₀.getD i 0)),
        foldl_jsMin_fin]
    rw [hmin]
    refine ⟨(rest.map (fun e => e.getD i 0)).foldl min (e₀.getD i 0), rfl, ?_, ?_⟩
    · simpa using foldl_min_mem (rest.map (fun e => e.getD i 0)) (e₀.getD i 0)
    · intro v hv
      exact foldl_min_le (rest.map (fun e => e.getD i 0)) (e₀.getD i 0) v (by simpa using hv)
  · rw [hget AggregationMode.max]
    have hmax : aggregateCell (e₀ :: rest) AggregationMode.max i =
        JsNum.fin ((rest.map (fun e => e.getD i 0)).foldl max (e₀.getD i 0)) := by
      show (e₀ :: rest).foldl (fun value expr => jsMax value (JsNum.fin (expr.getD i 0)))
        JsNum.negInf = _
      rw [List.foldl_cons]
      have hseed : jsMax JsNum.negInf (JsNum.fin (e₀.getD i 0)) = JsNum.fin (e₀.getD i 0) := rfl
      rw [hseed,
        ← List.foldl_map (fun e => e.getD i 0) (fun a v => jsMax a (JsNum.fin v)) rest
          (JsNum.fin (e₀.getD i 0)),
        foldl_jsMax_fin]
    rw [hmax]
    refine ⟨(rest.map (fun e => e.getD i 0)).foldl max (e₀.getD i 0), rfl, ?_, ?_⟩
    · simpa using foldl_max_mem (rest.map (fun e => e.getD i 0)) (e₀.getD i 0)
    · intro v hv
      exact foldl_max_ge (rest.map (fun e => e.getD i 0)) (e₀.getD i 0) v (by simpa using hv)

/-- C3 witness: the specification theorem applied to the concrete family
`[[1, 5], [3, 2]]` of length-2 vectors. -/
theorem aggregateGeneExpression_spec_witness :
    ([[1, 5], [3, 2]] : List ExpressionVector) ≠ [] ∧
    (∀ e ∈ ([[1, 5], [3, 2]] : List ExpressionVector), e.length = 2) ∧
    ((∀ mode, (aggregateGeneExpression [[1, 5], [3, 2]] mode).length = 2) ∧
      (∀ mode, aggregateGeneExpression [] mode = []) ∧
      ∀ i, i < 2 →
        ((aggregateGeneExpression [[1, 5], [3, 2]] AggregationMode.sum).getD i (JsNum.fin 0) =
          JsNum.fin ((([[1, 5], [3, 2]] : List ExpressionVector).map
            (fun e => e.getD i 0)).sum)) ∧
        ((aggregateGeneExpression [[1, 5], [3, 2]] AggregationMode.average).getD i (JsNum.fin 0) =
          JsNum.fin ((([[1, 5], [3, 2]] : List ExpressionVector).map (fun e => e.getD i 0)).sum /
            ([[1, 5], [3, 2]] : List ExpressionVector).length)) ∧
        (∃ m, (aggregateGeneExpression [[1, 5], [3, 2]] AggregationMode.min).getD i
            (JsNum.fin 0) = JsNum.fin m ∧
          m ∈ ([[1, 5], [3, 2]] : List ExpressionVector).map (fun e => e.getD i 0) ∧
          ∀ v ∈ ([[1, 5], [3, 2]] : List ExpressionVector).map (fun e => e.getD i 0), m ≤ v) ∧
        (∃ m, (aggregateGeneExpression [[1, 5], [3, 2]] AggregationMode.max).getD i
            (JsNum.fin 0) = JsNum.fin m ∧
          m ∈ ([[1, 5], [3, 2]] : List ExpressionVector).map (fun e => e.getD i 0) ∧
          ∀ v ∈ ([[1, 5], [3, 2]] : List ExpressionVector).map (fun e => e.getD i 0), v ≤ m)) :=
  ⟨by decide, by decide, aggregateGeneExpression_spec [[1, 5], [3, 2]] 2 (by decide) (by decide)⟩

/-- Invariant of the hover scan loop: the running `best` only
decreases, ends below every examined squared distance, and either no
point was ever accepted (and every examined point was strictly farther
than the initial `best`) or the final `(best, closest)` is the squared
distance and identity of some examined point. -/
theorem hoverFold_spec (coordsX coordsY : ℚ) (pts : List ScatterPlotPoint) :
    ∀ (b : ℚ) (c : Option ScatterPlotPoint),
      (pts.foldl (hoverScanStep coordsX coordsY) (b, c)).1 ≤ b ∧
      (∀ q ∈ pts,
        (pts.foldl (hoverScanStep coordsX coordsY) (b, c)).1 ≤ dist2 coordsX coordsY q) ∧
      ((pts.foldl (hoverScanStep coordsX coordsY) (b, c)) = (b, c) ∧
          (∀ q ∈ pts, ¬ dist2 coordsX coordsY q ≤ b) ∨
        ∃ p ∈ pts, (pts.foldl (hoverScanStep coordsX coordsY) (b, c)).2 = some p ∧
          (pts.foldl (hoverScanStep coordsX coordsY) (b, c)).1 = dist2 coordsX coordsY p) := by
  induction pts with
  | nil => intro b c; exact ⟨le_refl b, by simp, Or.inl ⟨rfl, by simp⟩⟩
  | cons p ps ih =>
    intro b c
    have hstep : hoverScanStep coordsX coordsY (b, c) p =
        if dist2 coordsX coordsY p ≤ b then (dist2 coordsX coordsY p, some p) else (b, c) := rfl
    rw [List.foldl_cons, hstep]
    by_cases hd : dist2 coordsX coordsY p ≤ b
    · rw [if_pos hd]
      obtain ⟨h1, h2, h3⟩ := ih (dist2 coordsX coordsY p) (some p)
      refine ⟨h1.trans hd, ?_, ?_⟩
      · intro q hq
        rcases List.mem_cons.mp hq with h | h
        · rw [h]; exact h1
        · exact h2 q h
      · rcases h3 with ⟨heq, _⟩ | ⟨p', hp', hsome, hbest⟩
        · exact Or.inr ⟨p, List.mem_cons_self _ _, by rw [heq], by rw [heq]⟩
        · exact Or.inr ⟨p', List.mem_cons.mpr (Or.inr hp'), hsome, hbest⟩
    · rw [if_neg hd]
      obtain ⟨h1, h2, h3⟩ := ih b c
      refine ⟨h1, ?_, ?_⟩
      · intro q hq
        rcases List.mem_cons.mp hq with h | h
        · rw [h]; exact h1.trans (le_of_not_le hd)
        · exact h2 q h
      · rcases h3 with ⟨heq, hall⟩ | ⟨p', hp', hsome, hbest⟩
        · refine Or.inl ⟨heq, ?_⟩
          intro q hq
          rcases List.mem_cons.mp hq with h | h
          · rw [h]; exact hd
          · exact hall q h
        · exact Or.inr ⟨p', List.mem_cons.mpr (Or.inr hp'), hsome, hbest⟩

/-- C8: the hover scan returns no point when every point's squared
distance to the pointer exceeds `R² = 36`; otherwise it returns a point
within radius `R` of the pointer that minimizes the squared distance,
and in particular the unique in-range point when exactly one point is
within `R`. -/
theorem hoverDetect_spec (pts : List ScatterPlotPoint) (coordsX coordsY : ℚ) :
    ((∀ p ∈ pts, hoverRadius * hoverRadius < dist2 coordsX coordsY p) →
      hoverDetect pts coordsX coordsY = none) ∧
    ((∃ p ∈ pts, dist2 coordsX coordsY p ≤ hoverRadius * hoverRadius) →
      ∃ p ∈ pts, hoverDetect pts coordsX coordsY = some p ∧
        dist2 coordsX coordsY p ≤ hoverRadius * hoverRadius ∧
        ∀ q ∈ pts, dist2 coordsX coordsY p ≤ dist2 coordsX coordsY q) ∧
    (∀ p ∈ pts, dist2 coordsX coordsY p ≤ hoverRadius * hoverRadius →
      (∀ q ∈ pts, q ≠ p → hoverRadius * hoverRadius < dist2 coordsX coordsY q) →
      hoverDetect pts coordsX coordsY = some p) := by
  obtain ⟨h1, h2, h3⟩ := hoverFold_spec coordsX coordsY pts (hoverRadius * hoverRadius) none
  refine ⟨?_, ?_, ?_⟩
  · intro hall
    rcases h3 with ⟨heq, _⟩ | ⟨p', hp', hsome, hbest⟩
    · unfold hoverDetect
      rw [heq]
    · exact absurd (hbest ▸ h1) (not_le.mpr (hall p' hp'))
  · intro ⟨p, hp, hd⟩
    rcases h3 with ⟨_, hall⟩ | ⟨p', hp', hsome, hbest⟩
    · exact absurd hd (hall p hp)
    · exact ⟨p', hp', hsome, hbest ▸ h1, fun q hq => hbest ▸ h2 q hq⟩
  · intro p hp hd huniq
    rcases h3 with ⟨_, hall⟩ | ⟨p', hp', hsome, hbest⟩
    · exact absurd hd (hall p hp)
    · have : p' = p := by
        by_contra hne
        exact absurd (hbest ▸ h1) (not_le.mpr (huniq p' hp' hne))
      rw [← this]
      exact hsome

/-- C2: starting from a state where gene `g` is not cached under the
current strain, the first load issues one remote fetch, the second load
is a cache hit (same vector, state unchanged, no new fetch); `setStrain`
never touches the persistent cache; and after switching to a different
strain under which `g` was never cached, loading `g` issues a new remote
fetch because the cache key is qualified by the current strain. -/
theorem strainCache_spec (remote : String → ℕ → ExpressionVector) (s0 : LoaderState)
    (g : ℕ) (strain' : String)
    (hmiss : getCachedGeneExpression s0 g = none)
    (hdiff : strain' ≠ s0.currentStrain)
    (hmiss' : lookupCache (strain', g) s0.cache = none) :
    (loadGeneExpression remote g s0).2.fetchLog.length = s0.fetchLog.length + 1 ∧
    loadGeneExpression remote g (loadGeneExpression remote g s0).2 =
      ((loadGeneExpression remote g s0).1, (loadGeneExpression remote g s0).2) ∧
    (∀ (st : String) (s : LoaderState), (setStrain st s).cache = s.cache) ∧
    (loadGeneExpression remote g
        (setStrain strain' (loadGeneExpression remote g s0).2)).2.fetchLog.length =
      (loadGeneExpression remote g s0).2.fetchLog.length + 1 := by
  have hsetcache : ∀ (st : String) (s : LoaderState), (setStrain st s).cache = s.cache := by
    intro st s
    unfold setStrain
    by_cases h : st ≠ s.currentStrain
    · rw [if_pos h]
    · rw [if_neg h]
  have hmiss0 : lookupCache (s0.currentStrain, g) s0.cache = none := hmiss
  have hdiff' : s0.currentStrain ≠ strain' := Ne.symm hdiff
  refine ⟨?_, ?_, hsetcache, ?_⟩ <;>
    rcases hE : s0.expressionArrayInstance with _ | harr <;>
      simp [loadGeneExpression, getCachedGeneExpression, getExpressionArray, setStrain,
        lookupCache, hmiss0, hmiss', hdiff, hdiff', hE]

/-- C2 witness: the specification theorem at a concrete fresh state,
gene index `0`, strains `AX4` and `DH1`. -/
theorem strainCache_spec_witness :
    getCachedGeneExpression ⟨"AX4", none, none, [], []⟩ 0 = none ∧
    "DH1" ≠ "AX4" ∧
    lookupCache ("DH1", 0) (LoaderState.cache ⟨"AX4", none, none, [], []⟩) = none ∧
    ((loadGeneExpression (fun _ _ => [1]) 0 ⟨"AX4", none, none, [], []⟩).2.fetchLog.length =
        (LoaderState.fetchLog ⟨"AX4", none, none, [], []⟩).length + 1 ∧
      loadGeneExpression (fun _ _ => [1]) 0
          (loadGeneExpression (fun _ _ => [1]) 0 ⟨"AX4", none, none, [], []⟩).2 =
        ((loadGeneExpression (fun _ _ => [1]) 0 ⟨"AX4", none, none, [], []⟩).1,
          (loadGeneExpression (fun _ _ => [1]) 0 ⟨"AX4", none, none, [], []⟩).2) ∧
      (∀ (st : String) (s : LoaderState), (setStrain st s).cache = s.cache) ∧
      (loadGeneExpression (fun _ _ => [1]) 0
          (setStrain "DH1"
            (loadGeneExpression (fun _ _ => [1]) 0 ⟨"AX4", none, none, [], []⟩).2)).2.fetchLog.length =
        (loadGeneExpression (fun _ _ => [1]) 0 ⟨"AX4", none, none, [], []⟩).2.fetchLog.length + 1) :=
  ⟨rfl, by decide, rfl,
    strainCache_spec (fun _ _ => [1]) ⟨"AX4", none, none, [], []⟩ 0 "DH1" rfl (by decide) rfl⟩

/-! ### Association-list helpers for the batch loader -/

theorem lookupIndex_filterMap (f : ℕ → Option ExpressionVector) (l : List ℕ) (i : ℕ) :
    lookupIndex i (l.filterMap (fun j => (f j).map (fun v => (j, v)))) =
      if i ∈ l then f i else none := by
  induction l with
  | nil => simp [lookupIndex]
  | cons j rest ih =>
    rw [List.filterMap_cons]
    by_cases hj : j = i
    · subst hj
      cases hf : f j with
      | none => simp [ih, hf]
      | some v => simp [lookupIndex, hf]
    · cases hf : f j with
      | none => simp [ih, hf, Ne.symm hj]
      | some v => simp [lookupIndex, ih, hj, Ne.symm hj]

theorem lookupIndex_append (i : ℕ) (l₁ l₂ : List (ℕ × ExpressionVector)) :
    lookupIndex i (l₁ ++ l₂) =
      match lookupIndex i l₁ with
      | some v => some v
      | none => lookupIndex i l₂ := by
  induction l₁ with
  | nil => simp [lookupIndex]
  | cons p rest ih =>
    rcases p with ⟨j, v⟩
    by_cases h : j = i <;> simp [lookupIndex, h, ih]

theorem successes_eq (fetch : ℕ → Except Unit ExpressionVector) (l : List ℕ) :
    (l.map (fun j => (j, fetch j))).filterMap (fun p => p.2.toOption.map (fun v => (p.1, v))) =
      l.filterMap (fun j => (fetch j).toOption.map (fun v => (j, v))) := by
  induction l with
  | nil => rfl
  | cons j rest ih => simp only [List.map_cons, List.filterMap_cons, ih]

theorem filterMap_if_eq_filter (p : ℕ → Bool) (l : List ℕ) :
    l.filterMap (fun j => if p j then some j else none) = l.filter p := by
  induction l with
  | nil => rfl
  | cons j rest ih =>
    rw [List.filterMap_cons, List.filter_cons]
    by_cases h : p j <;> simp [h, ih]

theorem failedGenes_eq (fetch : ℕ → Except Unit ExpressionVector) (l : List ℕ) :
    (l.map (fun j => (j, fetch j))).filterMap
        (fun p => if p.2.toOption.isNone then some p.1 else none) =
      l.filter (fun j => (fetch j).toOption.isNone) := by
  rw [List.filterMap_map]
  exact filterMap_if_eq_filter (fun j => (fetch j).toOption.isNone) l

theorem length_filter_eq_iff (p : ℕ → Bool) (l : List ℕ) :
    (l.filter p).length = l.length ↔ ∀ i ∈ l, p i := by
  induction l with
  | nil => simp
  | cons j rest ih =>
    rw [List.filter_cons]
    by_cases h : p j
    · simp only [if_pos h, List.length_cons, Nat.add_right_cancel_iff, ih]
      constructor
      · intro hall i hi
        rcases List.mem_cons.mp hi with h' | h'
        · rw [h']; exact h
        · exact hall i h'
      · intro hall i hi
        exact hall i (List.mem_cons.mpr (Or.inr hi))
    · have hle := List.length_filter_le p rest
      rw [if_neg h, List.length_cons]
      constructor
      · intro he
        exact absurd he (by omega)
      · intro hall
        exact absurd (hall j (List.mem_cons_self _ _)) h

theorem toOption_eq_none_iff (r : Except Unit ExpressionVector) :
    r.toOption = none ↔ r = Except.error () := by
  cases r with
  | error e => cases e; simp [Except.toOption]
  | ok v => simp [Except.toOption]

/-- C1: in `loadMultipleGenesExpression(indices)` the call rejects —
naming exactly the uncached indices, all of which failed — if and only
if there is at least one uncached index and every uncached fetch
failed; otherwise it resolves with every failing uncached index
recorded in `failedIndices` and absent from `data`, every cached index
bound in `data` to its cached vector, and every successfully fetched
index bound in `data` to the fetched vector. -/
theorem loadMultipleGenesExpression_spec (cache : ℕ → Option ExpressionVector)
    (fetch : ℕ → Except Unit ExpressionVector) (idx : List ℕ) :
    ((∃ failed, loadMultipleGenesExpression cache fetch idx = Except.error failed) ↔
      uncachedIndices cache idx ≠ [] ∧
        ∀ i ∈ uncachedIndices cache idx, fetch i = Except.error ()) ∧
    (∀ failed, loadMultipleGenesExpression cache fetch idx = Except.error failed →
      failed = uncachedIndices cache idx) ∧
    (∀ res, loadMultipleGenesExpression cache fetch idx = Except.ok res →
      (∀ i ∈ idx, cache i = none → fetch i = Except.error () →
        i ∈ res.failedIndices ∧ lookupIndex i res.data = none) ∧
      (∀ i ∈ idx, ∀ v, cache i = some v → lookupIndex i res.data = some v) ∧
      (∀ i ∈ idx, cache i = none → ∀ v, fetch i = Except.ok v →
        lookupIndex i res.data = some v) ∧
      (∀ i ∈ res.failedIndices, i ∈ idx ∧ cache i = none ∧ fetch i = Except.error ())) := by
  have hmain : loadMultipleGenesExpression cache fetch idx =
      (if 0 < (uncachedIndices cache idx).length then
        (if ((uncachedIndices cache idx).filter
              (fun j => (fetch j).toOption.isNone)).length =
            (uncachedIndices cache idx).length then
          Except.error ((uncachedIndices cache idx).filter (fun j => (fetch j).toOption.isNone))
        else
          Except.ok ⟨(idx.filterMap (fun i => (cache i).map (fun v => (i, v)))) ++
              ((uncachedIndices cache idx).filterMap
                (fun j => (fetch j).toOption.map (fun v => (j, v)))),
            (uncachedIndices cache idx).filter (fun j => (fetch j).toOption.isNone)⟩)
      else Except.ok ⟨idx.filterMap (fun i => (cache i).map (fun v => (i, v))), []⟩) := by
    simp only [loadMultipleGenesExpression, successes_eq, failedGenes_eq]
  have hmemu : ∀ i, i ∈ uncachedIndices cache idx ↔ i ∈ idx ∧ cache i = none := by
    intro i
    simp [uncachedIndices, List.mem_filter, Option.isNone_iff_eq_none]
  rw [hmain]
  by_cases hu : 0 < (uncachedIndices cache idx).length
  · by_cases hall : ((uncachedIndices cache idx).filter
        (fun j => (fetch j).toOption.isNone)).length = (uncachedIndices cache idx).length
    · rw [if_pos hu, if_pos hall]
      have hfl : (uncachedIndices cache idx).filter (fun j => (fetch j).toOption.isNone) =
          uncachedIndices cache idx :=
        (List.filter_sublist _).eq_of_length hall
      refine ⟨?_, ?_, ?_⟩
      · constructor
        · intro _
          refine ⟨List.length_pos.mp hu, ?_⟩
          intro i hi
          have := (length_filter_eq_iff _ _).mp hall i hi
          exact (toOption_eq_none_iff (fetch i)).mp (Option.isNone_iff_eq_none.mp this)
        · intro _
          exact ⟨_, rfl⟩
      · intro failed hfe
        have : (uncachedIndices cache idx).filter (fun j => (fetch j).toOption.isNone) =
            failed := by
          injection hfe
        rw [← this, hfl]
      · intro res hre
        exact absurd hre (by simp)
    · rw [if_pos hu, if_neg hall]
      refine ⟨?_, ?_, ?_⟩
      · constructor
        · intro ⟨failed, hfe⟩
          exact absurd hfe (by simp)
        · intro ⟨hne, herr⟩
          exfalso
          apply hall
          rw [length_filter_eq_iff]
          intro i hi
          rw [Option.isNone_iff_eq_none, toOption_eq_none_iff]
          exact herr i hi
      · intro failed hfe
        exact absurd hfe (by simp)
      · intro res hre
        have hres : res = ⟨(idx.filterMap (fun i => (cache i).map (fun v => (i, v)))) ++
            ((uncachedIndices cache idx).filterMap
              (fun j => (fetch j).toOption.map (fun v => (j, v)))),
            (uncachedIndices cache idx).filter (fun j => (fetch j).toOption.isNone)⟩ := by
          injection hre with h
          exact h.symm
        subst hres
        refine ⟨?_, ?_, ?_, ?_⟩
        · intro i hi hc hf
          have hiu : i ∈ uncachedIndices cache idx := (hmemu i).mpr ⟨hi, hc⟩
          constructor
          · simp only [List.mem_filter]
            refine ⟨hiu, ?_⟩
            rw [Option.isNone_iff_eq_none, toOption_eq_none_iff]
            exact hf
          · rw [lookupIndex_append, lookupIndex_filterMap, lookupIndex_filterMap]
            rw [if_pos hi, hc]
            simp only []
            rw [if_pos hiu, hf]
            rfl
        · intro i hi v hc
          rw [lookupIndex_append, lookupIndex_filterMap]
          rw [if_pos hi, hc]
        · intro i hi hc v hf
          have hiu : i ∈ uncachedIndices cache idx := (hmemu i).mpr ⟨hi, hc⟩
          rw [lookupIndex_append, lookupIndex_filterMap, lookupIndex_filterMap]
          rw [if_pos hi, hc]
          simp only []
          rw [if_pos hiu, hf]
          rfl
        · intro i hif
          rw [List.mem_filter] at hif
          obtain ⟨hiu, hfb⟩ := hif
          obtain ⟨hi, hc⟩ := (hmemu i).mp hiu
          refine ⟨hi, hc, ?_⟩
          rw [← toOption_eq_none_iff, ← Option.isNone_iff_eq_none]
          exact hfb
  · rw [if_neg hu]
    have hue : uncachedIndices cache idx = [] := by
      rcases List.eq_nil_or_concat (uncachedIndices cache idx) with h | ⟨l, a, h⟩
      · exact h
      · exfalso; apply hu; rw [h]; simp
    refine ⟨?_, ?_, ?_⟩
    · constructor
      · intro ⟨failed, hfe⟩
        exact absurd hfe (by simp)
      · intro ⟨hne, _⟩
        exact absurd hue hne
    · intro failed hfe
      exact absurd hfe (by simp)
    · intro res hre
      have hres : res = ⟨idx.filterMap (fun i => (cache i).map (fun v => (i, v))), []⟩ := by
        injection hre with h
        exact h.symm
      subst hres
      refine ⟨?_, ?_, ?_, ?_⟩
      · intro i hi hc _
        exfalso
        have : i ∈ uncachedIndices cache idx := (hmemu i).mpr ⟨hi, hc⟩
        rw [hue] at this
        exact absurd this (List.not_mem_nil i)
      · intro i hi v hc
        rw [lookupIndex_filterMap, if_pos hi, hc]
      · intro i hi hc v _
        exfalso
        have : i ∈ uncachedIndices cache idx := (hmemu i).mpr ⟨hi, hc⟩
        rw [hue] at this
        exact absurd this (List.not_mem_nil i)
      · intro i hif
        exact absurd hif (List.not_mem_nil i)

/-- The sorted distinct non-null values of a per-point attribute are
invariant under permutation of the points. -/
theorem sortedUnique_perm_eq (f : UmapDataPoint → Option String) (d₁ d₂ : List UmapDataPoint)
    (hperm : d₁.Perm d₂) :
    List.insertionSort (fun a b => a ≤ b) ((d₁.map f).reduceOption.dedup) =
      List.insertionSort (fun a b => a ≤ b) ((d₂.map f).reduceOption.dedup) := by
  have h0 : List.Perm (d₁.map f).reduceOption (d₂.map f).reduceOption :=
    List.Perm.filterMap id (hperm.map f)
  have h1 : List.Perm (d₁.map f).reduceOption.dedup (d₂.map f).reduceOption.dedup := h0.dedup
  exact List.eq_of_perm_of_sorted
    ((List.perm_insertionSort _ _).trans (h1.trans (List.perm_insertionSort _ _).symm))
    (List.sorted_insertionSort _ _) (List.sorted_insertionSort _ _)

/-- C6: the categorical color of a `time` or `cell_type` value is the
palette entry at that value's rank in the sorted list of distinct
non-null values, cycling modulo the palette length; permuting the
dataset's rows changes neither the sorted distinct values nor the color
any value receives, and the permuted dataset's color cache is built from
the same value-to-color assignment as the original's. -/
theorem categoricalColor_perm_stable (d₁ d₂ : List UmapDataPoint) (hperm : d₁.Perm d₂) :
    sortedUniqueTimes d₁ = sortedUniqueTimes d₂ ∧
    sortedUniqueCellTypes d₁ = sortedUniqueCellTypes d₂ ∧
    (∀ t : String, colorForCategory TIME_COLORS (sortedUniqueTimes d₁) t =
      colorForCategory TIME_COLORS (sortedUniqueTimes d₂) t) ∧
    (∀ t : String, colorForCategory CELL_TYPE_COLORS (sortedUniqueCellTypes d₁) t =
      colorForCategory CELL_TYPE_COLORS (sortedUniqueCellTypes d₂) t) ∧
    (∀ t ∈ sortedUniqueTimes d₁, colorForCategory TIME_COLORS (sortedUniqueTimes d₁) t =
      TIME_COLORS.getD ((sortedUniqueTimes d₁).indexOf t % TIME_COLORS.length) ZERO_COLOR) ∧
    (∀ t ∈ sortedUniqueCellTypes d₁,
      colorForCategory CELL_TYPE_COLORS (sortedUniqueCellTypes d₁) t =
        CELL_TYPE_COLORS.getD ((sortedUniqueCellTypes d₁).indexOf t % CELL_TYPE_COLORS.length)
          ZERO_COLOR) ∧
    buildTimeColorCache d₂ = d₂.map (fun d =>
      match d.time with
      | some t => colorForCategory TIME_COLORS (sortedUniqueTimes d₁) t
      | none => ZERO_COLOR) ∧
    buildCellTypeColorCache d₂ = d₂.map (fun d =>
      match d.cell_type with
      | some t => colorForCategory CELL_TYPE_COLORS (sortedUniqueCellTypes d₁) t
      | none => ZERO_COLOR) := by
  have hTime : sortedUniqueTimes d₁ = sortedUniqueTimes d₂ :=
    sortedUnique_perm_eq (fun d => d.time) d₁ d₂ hperm
  have hType : sortedUniqueCellTypes d₁ = sortedUniqueCellTypes d₂ :=
    sortedUnique_perm_eq (fun d => d.cell_type) d₁ d₂ hperm
  refine ⟨hTime, hType, fun t => by rw [hTime], fun t => by rw [hType], ?_, ?_, ?_, ?_⟩
  · intro t ht
    unfold colorForCategory
    rw [if_pos ht]
  · intro t ht
    unfold colorForCategory
    rw [if_pos ht]
  · unfold buildTimeColorCache
    rw [← hTime]
  · unfold buildCellTypeColorCache
    rw [← hType]

/-- C6 witness: the specification theorem applied to a concrete
two-point dataset and its transposition. -/
theorem categoricalColor_perm_stable_witness :
    (([⟨"0", 0, 0, "", some "t0", some "A"⟩, ⟨"1", 0, 0, "", some "t1", some "B"⟩] :
        List UmapDataPoint).Perm
      [⟨"1", 0, 0, "", some "t1", some "B"⟩, ⟨"0", 0, 0, "", some "t0", some "A"⟩]) ∧
    sortedUniqueTimes
        [⟨"0", 0, 0, "", some "t0", some "A"⟩, ⟨"1", 0, 0, "", some "t1", some "B"⟩] =
      sortedUniqueTimes
        [⟨"1", 0, 0, "", some "t1", some "B"⟩, ⟨"0", 0, 0, "", some "t0", some "A"⟩] :=
  ⟨List.Perm.swap _ _ _,
    (categoricalColor_perm_stable
      [⟨"0", 0, 0, "", some "t0", some "A"⟩, ⟨"1", 0, 0, "", some "t1", some "B"⟩]
      [⟨"1", 0, 0, "", some "t1", some "B"⟩, ⟨"0", 0, 0, "", some "t0", some "A"⟩]
      (List.Perm.swap _ _ _)).1⟩

/-! ### Clamp and legend-max helpers -/

theorem clamp01_of_mem (x : ℚ) (h0 : 0 ≤ x) (h1 : x ≤ 1) : clamp01 x = x := by
  unfold clamp01
  rw [min_eq_right h1, max_eq_right h0]

theorem clamp01_nonneg (x : ℚ) : 0 ≤ clamp01 x := le_max_left 0 _

theorem clamp01_le_one (x : ℚ) : clamp01 x ≤ 1 :=
  max_le (by norm_num) (min_le_left 1 x)

theorem genesColor_clamp (t : ℚ) : genesColor t = genesColor (clamp01 t) := by
  unfold genesColor
  rw [clamp01_of_mem (clamp01 t) (clamp01_nonneg t) (clamp01_le_one t)]

theorem legend_step_eq (acc v : ℚ) : (if v > acc then v else acc) = max acc v := by
  by_cases h : v > acc
  · rw [if_pos h, max_eq_right h.le]
  · rw [if_neg h, max_eq_left (not_lt.mp h)]

theorem computeLegendMax_eq_foldl_max (values : List ℚ) :
    computeLegendMax values =
      if values.foldl max 0 > 0 then values.foldl max 0 else 1 := by
  unfold computeLegendMax
  have h : values.foldl (fun acc v => if v > acc then v else acc) 0 = values.foldl max 0 :=
    List.foldl_ext _ _ _ (fun acc v _ => legend_step_eq acc v)
  rw [h]

/-- C7 counterexample: at the source `[-1]` — non-empty and not
all-zero, with maximum (finite) value `-1` — `computeLegendMax` returns
`1`, not the maximum value claimed. -/
theorem computeLegendMax_counterexample :
    computeLegendMax [(-1 : ℚ)] = 1 ∧ (-1 : ℚ) ≠ 0 ∧ (1 : ℚ) ≠ -1 := by decide

/-- C7 (amended): `legendMax` is the maximum value of the source when
the source holds a positive value, and `1` when it holds none (in
particular when it is empty or all-zero); each cell with value `≤ 0`
receives the fixed zero color, and each cell with positive value `v` is
colored by the two-segment gradient at `v / legendMax` clamped to
`[0, 1]`: `#e8e8e8 → #4a688d` over `[0, 0.8]` and `#4a688d → #375068`
over `[0.8, 1]`. -/
theorem continuousColor_spec (values : List ℚ) (nCells : ℕ) :
    ((∃ v ∈ values, 0 < v) → computeLegendMax values ∈ values ∧
      ∀ v ∈ values, v ≤ computeLegendMax values) ∧
    ((∀ v ∈ values, v ≤ 0) → computeLegendMax values = 1) ∧
    (∀ i, i < nCells →
      (buildColorCache values nCells (computeLegendMax values)).getD i ZERO_COLOR =
        if values.getD i 0 ≤ 0 then ZERO_COLOR
        else genesColor (clamp01 (values.getD i 0 / computeLegendMax values))) ∧
    (∀ t : ℚ, genesColor t = genesColor (clamp01 t)) ∧
    (∀ t : ℚ, 0 ≤ t → t ≤ 0.8 →
      genesColor t = Color.rgb (jsRound (lerp 232 74 (t / 0.8)))
        (jsRound (lerp 232 104 (t / 0.8))) (jsRound (lerp 232 141 (t / 0.8)))) ∧
    (∀ t : ℚ, 0.8 < t → t ≤ 1 →
      genesColor t = Color.rgb (jsRound (lerp 74 55 ((t - 0.8) / 0.2)))
        (jsRound (lerp 104 80 ((t - 0.8) / 0.2))) (jsRound (lerp 141 104 ((t - 0.8) / 0.2)))) := by
  refine ⟨?_, ?_, ?_, genesColor_clamp, ?_, ?_⟩
  · intro ⟨v, hv, hvpos⟩
    have hub := foldl_max_ge values 0
    have hmem := foldl_max_mem values 0
    have hpos : 0 < values.foldl max 0 :=
      lt_of_lt_of_le hvpos (hub v (List.mem_cons.mpr (Or.inr hv)))
    rw [computeLegendMax_eq_foldl_max, if_pos hpos]
    constructor
    · rcases List.mem_cons.mp hmem with h | h
      · exact absurd h.symm (ne_of_gt hpos).symm
      · exact h
    · intro w hw
      exact hub w (List.mem_cons.mpr (Or.inr hw))
  · intro hall
    have hub := foldl_max_ge values 0
    have hmem := foldl_max_mem values 0
    have h0 : 0 ≤ values.foldl max 0 := hub 0 (List.mem_cons_self _ _)
    have hle : values.foldl max 0 ≤ 0 := by
      rcases List.mem_cons.mp hmem with h | h
      · rw [h]
      · exact hall _ h
    rw [computeLegendMax_eq_foldl_max, if_neg (not_lt.mpr hle)]
  · intro i hi
    unfold buildColorCache
    rw [List.getD_eq_getElem?_getD, List.getElem?_map, List.getElem?_range hi]
    simp only [Option.map_some', Option.getD_some]
    by_cases hval : values.getD i 0 ≤ 0
    · rw [if_pos hval, if_pos hval]
    · rw [if_neg hval, if_neg hval, genesColor_clamp]
  · intro t h0 h8
    unfold genesColor
    rw [clamp01_of_mem t h0 (h8.trans (by norm_num)), if_pos h8]
    rw [show hexToRgb "#e8e8e8" = (232, 232, 232) from by decide,
      show hexToRgb "#4a688d" = (74, 104, 141) from by decide]
    simp only []
    congr 1
  · intro t h8 h1
    unfold genesColor
    rw [clamp01_of_mem t ((by norm_num : (0:ℚ) ≤ 0.8).trans h8.le) h1,
      if_neg (not_le.mpr h8)]
    rw [show hexToRgb "#4a688d" = (74, 104, 141) from by decide,
      show hexToRgb "#375068" = (55, 80, 104) from by decide]
    simp only []
    congr 1

/-- C5: one wheel-zoom application multiplies the scale by
`exp(−accum · 0.0015)` (so an accumulated delta of `100` from scale `1`
yields `exp(−0.15)`, which lies in `[0.85, 0.87]`, ≈ `0.8607`), and the
recomputed offsets keep every base position that projected to the
cursor's screen position projecting to that same screen position
(zoom-to-cursor fixed point, in both axes). -/
theorem handleWheel_spec (t : ViewTransform) (coordsX coordsY d width height : ℝ) :
    (handleWheelUpdate t coordsX coordsY d width height).scale =
      t.scale * Real.exp (-d * 0.0015) ∧
    (∀ baseX, projectX t width baseX = coordsX →
      projectX (handleWheelUpdate t coordsX coordsY d width height) width baseX = coordsX) ∧
    (∀ baseY, projectY t height baseY = coordsY →
      projectY (handleWheelUpdate t coordsX coordsY d width height) height baseY = coordsY) ∧
    (1 * Real.exp (-(100 : ℝ) * 0.0015) = Real.exp (-(0.15 : ℝ)) ∧
      0.85 ≤ Real.exp (-(0.15 : ℝ)) ∧ Real.exp (-(0.15 : ℝ)) ≤ 0.87) := by
  have hnum : ∀ baseC coordC offC dim : ℝ,
      (baseC - dim / 2) * t.scale + dim / 2 + offC = coordC →
      ¬ t.scale * Real.exp (-d * 0.0015) = t.scale →
      (baseC - dim / 2) * (t.scale * Real.exp (-d * 0.0015)) + dim / 2 +
          ((coordC - dim / 2) * (1 - t.scale * Real.exp (-d * 0.0015) / t.scale) +
            offC * (t.scale * Real.exp (-d * 0.0015) / t.scale)) = coordC := by
    intro baseC coordC offC dim hproj hne
    have hs : t.scale ≠ 0 := by
      intro h0
      apply hne
      rw [h0, zero_mul]
    rw [← hproj]
    field_simp
    ring
  by_cases h : t.scale * Real.exp (-d * 0.0015) = t.scale
  · refine ⟨?_, ?_, ?_, ?_⟩
    · show (if t.scale * Real.exp (-d * 0.0015) = t.scale then t else _).scale = _
      rw [if_pos h, h]
    · intro baseX hb
      show projectX (if t.scale * Real.exp (-d * 0.0015) = t.scale then t else _) width baseX = _
      rw [if_pos h]
      exact hb
    · intro baseY hb
      show projectY (if t.scale * Real.exp (-d * 0.0015) = t.scale then t else _) height baseY = _
      rw [if_pos h]
      exact hb
    · refine ⟨by norm_num, ?_, ?_⟩
      · have := Real.add_one_le_exp (-(0.15 : ℝ))
        linarith
      · have h1 : (1.15 : ℝ) ≤ Real.exp 0.15 := by
          have := Real.add_one_le_exp (0.15 : ℝ)
          linarith
        have h2 : Real.exp (-(0.15 : ℝ)) = (Real.exp 0.15)⁻¹ := Real.exp_neg 0.15
        rw [h2]
        have h3 : (Real.exp 0.15)⁻¹ ≤ (1.15 : ℝ)⁻¹ := by
          apply inv_anti₀ (by norm_num) h1
        calc (Real.exp 0.15)⁻¹ ≤ (1.15 : ℝ)⁻¹ := h3
          _ ≤ 0.87 := by norm_num
  · refine ⟨?_, ?_, ?_, ?_⟩
    · show (if t.scale * Real.exp (-d * 0.0015) = t.scale then t else _).scale = _
      rw [if_neg h]
    · intro baseX hb
      show projectX (if t.scale * Real.exp (-d * 0.0015) = t.scale then t else _) width baseX = _
      rw [if_neg h]
      exact hnum baseX coordsX t.offsetX width hb h
    · intro baseY hb
      show projectY (if t.scale * Real.exp (-d * 0.0015) = t.scale then t else _) height baseY = _
      rw [if_neg h]
      exact hnum baseY coordsY t.offsetY height hb h
    · refine ⟨by norm_num, ?_, ?_⟩
      · have := Real.add_one_le_exp (-(0.15 : ℝ))
        linarith
      · have h1 : (1.15 : ℝ) ≤ Real.exp 0.15 := by
          have := Real.add_one_le_exp (0.15 : ℝ)
          linarith
        have h2 : Real.exp (-(0.15 : ℝ)) = (Real.exp 0.15)⁻¹ := Real.exp_neg 0.15
        rw [h2]
        have h3 : (Real.exp 0.15)⁻¹ ≤ (1.15 : ℝ)⁻¹ := by
          apply inv_anti₀ (by norm_num) h1
        calc (Real.exp 0.15)⁻¹ ≤ (1.15 : ℝ)⁻¹ := h3
          _ ≤ 0.87 := by norm_num

end DictyExpress
